import Mathlib

/-!
Verification of the obsidian-github-discussions sync engine.
Strings from the TypeScript source are modelled as lists of characters
(the type `Str` below); the JavaScript string operations used by the code
(single-character split, startsWith, trim, template concatenation) are
given faithful executable models over that type.
-/

/-- JavaScript strings are modelled as lists of characters. -/
abbrev Str := List Char

/-- The text produced when a JavaScript template literal interpolates the
value `undefined` (as happens when array destructuring runs past the end
of the array returned by split). -/
def jsUndefined : Str := "undefined".data

/-- Element `i` of the array produced by a JavaScript split, as seen by a
template literal: the element itself when present, the text "undefined"
when the array is too short. -/
def getPart (parts : List Str) (i : Nat) : Str :=
  (parts.get? i).getD jsUndefined

/-- Model of the JavaScript `s.split(sep)` for a single-character
separator: greedy left-to-right scan, empty chunks kept. The recursive
result is never empty, so prepending to its head chunk loses nothing. -/
def splitOnChar (sep : Char) : Str → List Str
  | [] => [[]]
  | c :: rest =>
    let r := splitOnChar sep rest
    if c = sep then [] :: r else (c :: r.headD []) :: r.tail

/-- `convertDateFormatToObsidian` from src/main.ts (operative revision):
splits on the dash and reassembles as month/day/year. -/
def convertDateFormatToObsidian (dateStr : Str) : Str :=
  let parts := splitOnChar '-' dateStr
  getPart parts 1 ++ ('/' :: (getPart parts 2 ++ ('/' :: getPart parts 0)))

/-- `convertDateFormatToGH` from src/main.ts: splits on the slash and
reassembles as year-month-day. -/
def convertDateFormatToGH (dateStr : Str) : Str :=
  let parts := splitOnChar '/' dateStr
  getPart parts 2 ++ ('-' :: (getPart parts 0 ++ ('-' :: getPart parts 1)))

/-- Rejoining the chunks of a split with the separator. -/
def joinWith (sep : Char) : List Str → Str
  | [] => []
  | [p] => p
  | p :: q :: t => p ++ sep :: joinWith sep (q :: t)

/-- A string consisting of exactly three dash-separated components, each
nonempty and made only of digits: a well-formed remote-format date. -/
def isWellFormedRemoteDate (s : Str) : Bool :=
  match splitOnChar '-' s with
  | [y, m, d] =>
    !y.isEmpty && !m.isEmpty && !d.isEmpty && (y ++ m ++ d).all Char.isDigit
  | _ => false

/-- JS String.startsWith over the character-list model. -/
def startsWithJS : Str → Str → Bool
  | _, [] => true
  | [], _ :: _ => false
  | a :: as, b :: bs => a = b && startsWithJS as bs

/-- JS String.trim: strip whitespace from both ends. -/
def trimJS (s : Str) : Str :=
  (((s.dropWhile Char.isWhitespace).reverse).dropWhile Char.isWhitespace).reverse

/-- Element `i` of a split-section array in a context where the code has
already checked the array is long enough (sections[1], sections[2] under
the sections.length guard of the upload loop). -/
def getSection (xs : List Str) (i : Nat) : Str :=
  (xs.get? i).getD []

/-- Model of the JavaScript split("---"): greedy leftmost scan for the
three-dash separator, empty chunks kept. -/
def splitOnDashes : Str → List Str
  | c1 :: c2 :: c3 :: r =>
    if c1 = '-' ∧ c2 = '-' ∧ c3 = '-' then [] :: splitOnDashes r
    else
      let q := splitOnDashes (c2 :: c3 :: r)
      (c1 :: q.headD []) :: q.tail
  | l => [l]

/-- Whether a string contains three consecutive dashes (an occurrence of
the section delimiter). -/
def hasTripleDash : Str → Bool
  | c1 :: c2 :: c3 :: r =>
    (decide (c1 = '-' ∧ c2 = '-' ∧ c3 = '-')) || hasTripleDash (c2 :: c3 :: r)
  | _ => false

/-- The sync-relevant plugin settings (OGDSettings in src/main.ts). -/
structure OGDSettings where
  blogPostCategory : Str
  draftLabel : Str
  tagLabelPrefix : Str
  seriesLabelPrefix : Str
deriving DecidableEq, Repr

/-- DEFAULT_SETTINGS from src/main.ts (the sync-relevant fields). -/
def DEFAULT_SETTINGS : OGDSettings :=
  { blogPostCategory := "Blog Posts".data
    draftLabel := "state/draft".data
    tagLabelPrefix := "tag/".data
    seriesLabelPrefix := "series/".data }

/-- A repository label node as returned by the GraphQL queries: id and
name. -/
structure LabelNode where
  id : Str
  name : Str
deriving DecidableEq, Repr

/-- A discussion category node of the repository-info query. -/
structure DiscussionCategory where
  id : Str
  name : Str
deriving DecidableEq, Repr

/-- The repository-info query result: repository id, its discussion
categories and its known labels. -/
structure RepoInfo where
  id : Str
  discussionCategories : List DiscussionCategory
  labels : List LabelNode
deriving DecidableEq, Repr

/-- The YAML frontmatter of a local document as consumed by the upload
code in src/main.ts: slug, description, published date in the local
MM/DD/YYYY format, optional tag list, optional series name, and the draft
flag of the classification data model. The upload code reads slug,
description, published, tags and series; it never reads the draft flag. -/
structure FrontMatter where
  slug : Option Str
  description : Str
  published : Str
  tags : Option (List Str)
  series : Option Str
  draft : Bool
deriving DecidableEq, Repr

/-- A markdown file of the articles directory as consumed by upload: base
name, the dash-delimited sections of its raw content (content.split with
the three-dash delimiter), and the frontmatter produced by the external
YAML parse of sections[1]. -/
structure MdFile where
  basename : Str
  sections : List Str
  frontMatter : FrontMatter
deriving DecidableEq, Repr

/-- A remote discussion record as consumed by upload and download: remote
id, title, raw body in the embedded-metadata convention, its label nodes,
and the slug its metadata block parses to (the external YAML parse of the
second dash-delimited section of the body; a missing key gives none). -/
structure Post where
  id : Str
  title : Str
  body : Str
  labels : List LabelNode
  slug : Option Str
deriving DecidableEq, Repr

/-- JS truthiness of an optional string: undefined and the empty string
are falsy. -/
def truthyStr : Option Str → Bool
  | none => false
  | some s => !s.isEmpty

/-- The label list built for one document by the upload code (the two
identical blocks in the new-file loop and the existing-file loop of
src/main.ts): tag labels rendered with the tag label prefix, then at most
one series label rendered with the series label prefix. The JS truthiness
checks skip an absent tags array and an absent or empty series string.
No draft label is ever pushed. -/
def toLabels (s : OGDSettings) (fm : FrontMatter) : List Str :=
  (match fm.tags with
   | some ts => ts.map (fun t => s.tagLabelPrefix ++ t)
   | none => []) ++
  (match fm.series with
   | some sr => if sr = [] then [] else [s.seriesLabelPrefix ++ sr]
   | none => [])

/-- Lookup in the association-list model of a JS Map. -/
def mapGet {β : Type} (m : List (Str × β)) (k : Str) : Option β :=
  (m.find? (fun e => e.1 = k)).map (fun e => e.2)

/-- JS Map.set: replace the value at an existing key in place, otherwise
append the new entry. -/
def mapSet {α β : Type} [DecidableEq α] (m : List (α × β)) (k : α) (v : β) :
    List (α × β) :=
  if (m.find? (fun e => e.1 = k)).isSome
  then m.map (fun e => if e.1 = k then (k, v) else e)
  else m ++ [(k, v)]

/-- The id a freshly created label receives from the remote server,
modelled as the label name itself: opaque and distinct per name, which is
all the code relies on. -/
def freshLabelId (name : Str) : Str := name

/-- createOrUpdateLabels from src/main.ts: walk the requested label
names; a name found in existingLabels reuses its id, any other name
issues a CREATE_LABEL_MUTATION (recorded in order in the second
component) and maps the name to the id the server returns. The
existingLabels map is read but never written. -/
def createOrUpdateLabels (existingLabels : List (Str × Str))
    (labelNames : List Str) : List (Str × Str) × List Str :=
  labelNames.foldl
    (fun acc labelName =>
      match mapGet existingLabels labelName with
      | some i => (mapSet acc.1 labelName i, acc.2)
      | none => (mapSet acc.1 labelName (freshLabelId labelName),
                 acc.2 ++ [labelName]))
    ([], [])

/-- The variable declarations of CREATE_LABEL_MUTATION in src/graphql.ts,
transcribed: each variable name paired with whether its GraphQL type is
non-nullable (marked with an exclamation point in the source text). -/
def createLabelMutationVariables : List (Str × Bool) :=
  [("repositoryId".data, true), ("name".data, true),
   ("description".data, false), ("color".data, true)]

/-- The keys of the variables record createOrUpdateLabels (src/main.ts)
passes when it executes CREATE_LABEL_MUTATION. -/
def createLabelCallKeys : List Str :=
  ["repositoryId".data, "name".data, "description".data]

/-- The removal filter applied to a matched discussion by the
frontmatter-and-labels loop of upload (src/main.ts): the ids of exactly
those labels currently on the discussion whose name starts with the
configured tag label prefix or the configured series label prefix. The
configured draft label literal is not consulted. -/
def existingLabelsToRemove (s : OGDSettings) (current : List LabelNode) :
    List Str :=
  (current.filter (fun l =>
    startsWithJS l.name s.tagLabelPrefix ||
      startsWithJS l.name s.seriesLabelPrefix)).map (fun l => l.id)

/-- The pair of label-mutation payloads upload issues for one matched
pair: the ids removed and the ids added. An empty list means the
corresponding mutation is not issued. -/
def labelSyncMutations (s : OGDSettings) (existing : List (Str × Str))
    (desired : List Str) (current : List LabelNode) : List Str × List Str :=
  (existingLabelsToRemove s current,
    ((createOrUpdateLabels existing desired).1).map (fun e => e.2))

/-- The remote label set of a matched discussion after the two label
mutations of one pass are applied: the managed labels removed, then every
desired label attached under the id recorded in the labelIds map. -/
def applyLabelSync (s : OGDSettings) (existing : List (Str × Str))
    (desired : List Str) (current : List LabelNode) : List LabelNode :=
  current.filter (fun l =>
    !(startsWithJS l.name s.tagLabelPrefix ||
      startsWithJS l.name s.seriesLabelPrefix)) ++
    ((createOrUpdateLabels existing desired).1).map
      (fun e => { id := e.2, name := e.1 })

/-- The create-label mutations issued across one upload run of the
new-file loop in src/main.ts: one createOrUpdateLabels call per document,
every call against the same never-updated existingLabels map, the create
logs concatenated in order. -/
def runLabelCreates (s : OGDSettings) (existing : List (Str × Str))
    (docs : List FrontMatter) : List Str :=
  docs.foldl (fun log fm => log ++ (createOrUpdateLabels existing (toLabels s fm)).2) []

/-- ghArticles.find of the upload loops: the first remote post whose
parsed slug strictly equals the slug of the local file. -/
def findPost (arts : List Post) (slug : Str) : Option Post :=
  arts.find? (fun p => p.slug = some slug)

/-- A file participates in upload matching only when its content has at
least three dash-delimited sections and a truthy slug; both guards are
continue statements in the upload loop of src/main.ts. -/
def validForUpload (f : MdFile) : Bool :=
  decide (3 ≤ f.sections.length) && truthyStr f.frontMatter.slug

/-- The slug of a file, defaulting to the empty string; meaningful only
under validForUpload. -/
def fileSlug (f : MdFile) : Str := f.frontMatter.slug.getD []

/-- newFiles of the upload loop: the valid files with no matching remote
post. -/
def newFiles (arts : List Post) (files : List MdFile) : List MdFile :=
  files.filter (fun f => validForUpload f && (findPost arts (fileSlug f)).isNone)

/-- existingFiles of the upload loop, each paired with its matching
remote post (the same ghArticles.find expression every modal loop
re-runs). -/
def pairedFiles (arts : List Post) (files : List MdFile) :
    List (MdFile × Post) :=
  files.filterMap (fun f =>
    if validForUpload f then (findPost arts (fileSlug f)).map (fun p => (f, p))
    else none)

/-- ghArticleMap of the download direction (src/main.ts): a JS Map keyed
by the parsed slug of each remote post — the key is undefined when the
slug is missing — with later posts overwriting earlier ones at the same
key (Map.set semantics). -/
def ghArticleMap (arts : List Post) : List (Option Str × Post) :=
  arts.foldl (fun m a => mapSet m a.slug a) []

/-- existingFileSlugs of the download direction: the truthy slugs of the
local files (the JS truthiness check skips a missing or empty slug). -/
def existingFileSlugs (files : List MdFile) : List Str :=
  files.filterMap (fun f =>
    if truthyStr f.frontMatter.slug then f.frontMatter.slug else none)

/-- newArticles of the download direction: the ghArticleMap entries whose
key is not among the local file slugs; the JS Set.has test is false both
for the undefined key and for any slug no local file carries. -/
def newArticles (arts : List Post) (files : List MdFile) :
    List (Option Str × Post) :=
  (ghArticleMap arts).filter (fun e =>
    match e.1 with
    | none => true
    | some s => !(decide (s ∈ existingFileSlugs files)))

/-- stringifyYaml (an external collaborator from the obsidian API)
applied to the three-key githubFrontMatter object the upload builds:
slug, description, published, serialized one line each in insertion
order. -/
def stringifyGithubFrontMatter (slug description published : Str) : Str :=
  "slug: ".data ++ (slug ++ ('\n' ::
    ("description: ".data ++ (description ++ ('\n' ::
      ("published: ".data ++ (published ++ ['\n'])))))))

/-- The githubFrontMatter object upload builds from the local
frontmatter: the local slug, the local description, and the published
date converted to the remote format. -/
def githubFrontMatterOf (fm : FrontMatter) : Str :=
  stringifyGithubFrontMatter (fm.slug.getD []) fm.description
    (convertDateFormatToGH fm.published)

/-- The discussion body the upload sends for both creates and updates:
a delimiter line, the serialized githubFrontMatter, a delimiter line,
then the trimmed third section of the local file. -/
def discussionBodyOf (fm : FrontMatter) (sections : List Str) : Str :=
  "---\n".data ++ (githubFrontMatterOf fm ++
    ("---\n".data ++ trimJS (getSection sections 2)))

/-- The GraphQL operations upload can issue, queries and mutations. -/
inductive GhOp where
  | queryRepoInfo
  | querySearchPosts
  | queryDiscussionLabels (id : Str)
  | createLabelM (name : Str)
  | createDiscussionM (title : Str) (body : Str)
  | addLabelsM (labelableId : Str) (labelIds : List Str)
  | removeLabelsM (labelableId : Str) (labelIds : List Str)
  | updateDiscussionM (discussionId : Str) (title : Str) (body : Str)
deriving DecidableEq, Repr

/-- Whether an operation is a mutation (createLabel, createDiscussion,
addLabelsToLabelable, removeLabelsFromLabelable, updateDiscussion) as
opposed to a read-only query. -/
def GhOp.isMutation : GhOp → Bool
  | queryRepoInfo => false
  | querySearchPosts => false
  | queryDiscussionLabels _ => false
  | _ => true

/-- The id the server assigns to a discussion created for a file,
modelled as the file base name (opaque; the code only threads it into the
following add-labels call). -/
def newDiscussionIdFor (f : MdFile) : Str := f.basename

/-- The operations the new-file loop issues for one file: the label
creates, the discussion create, then the unconditional add-labels call on
the fresh discussion. -/
def newFileOps (s : OGDSettings) (existing : List (Str × Str))
    (f : MdFile) : List GhOp :=
  let r := createOrUpdateLabels existing (toLabels s f.frontMatter)
  (r.2.map GhOp.createLabelM) ++
    [GhOp.createDiscussionM f.basename (discussionBodyOf f.frontMatter f.sections),
     GhOp.addLabelsM (newDiscussionIdFor f) (r.1.map (fun e => e.2))]

/-- The operations the frontmatter-and-labels loop issues for one matched
pair: the label creates, the per-discussion label query, a remove-labels
mutation when the managed-label filter is nonempty, and an add-labels
mutation when the labelIds map is nonempty. -/
def labelUpdateOps (s : OGDSettings) (existing : List (Str × Str))
    (fp : MdFile × Post) : List GhOp :=
  let r := createOrUpdateLabels existing (toLabels s fp.1.frontMatter)
  let toRemove := existingLabelsToRemove s fp.2.labels
  (r.2.map GhOp.createLabelM) ++
    (GhOp.queryDiscussionLabels fp.2.id ::
      ((if toRemove ≠ [] then [GhOp.removeLabelsM fp.2.id toRemove] else []) ++
       (if r.1 ≠ [] then [GhOp.addLabelsM fp.2.id (r.1.map (fun e => e.2))] else [])))

/-- The UPDATE_DISCUSSION_MUTATION call the content-update loop issues
for one matched pair: it targets the matched post and sends the file base
name as title and the rebuilt discussion body. -/
def contentUpdateOp (f : MdFile) (post : Post) : GhOp :=
  .updateDiscussionM post.id f.basename (discussionBodyOf f.frontMatter f.sections)

/-- One upload run modelled as the list of GraphQL operations issued in
order (src/main.ts upload): the repository-info query; then, unless the
run returns early because the configured category name resolves to no
truthy category id, the discussion search followed by the three
confirmation-gated blocks (new files; frontmatter and labels; content),
each block iterating its files in order. -/
def uploadTrace (s : OGDSettings) (info : RepoInfo) (arts : List Post)
    (files : List MdFile) (confirmNew confirmLabels confirmContent : Bool) :
    List GhOp :=
  let categoryId := (info.discussionCategories.find?
    (fun c => c.name = s.blogPostCategory)).map (fun c => c.id)
  GhOp.queryRepoInfo ::
    (if !(truthyStr categoryId) then []
     else
      let existing := info.labels.map (fun l => (l.name, l.id))
      let newFs := newFiles arts files
      let pairs := pairedFiles arts files
      GhOp.querySearchPosts ::
        ((if newFs ≠ [] ∧ confirmNew then newFs.flatMap (newFileOps s existing) else []) ++
         (if pairs ≠ [] ∧ confirmLabels then pairs.flatMap (labelUpdateOps s existing) else []) ++
         (if pairs ≠ [] ∧ confirmContent then pairs.map (fun fp => contentUpdateOp fp.1 fp.2) else [])))

theorem splitOnChar_ne_nil (sep : Char) (s : Str) : splitOnChar sep s ≠ [] := by
  cases s with
  | nil => simp [splitOnChar]
  | cons c rest =>
    simp only [splitOnChar]
    by_cases hc : c = sep <;> simp [hc]

theorem joinWith_splitOnChar (sep : Char) (s : Str) :
    joinWith sep (splitOnChar sep s) = s := by
  induction s with
  | nil => simp [splitOnChar, joinWith]
  | cons c rest ih =>
    simp only [splitOnChar]
    cases h : splitOnChar sep rest with
    | nil => exact absurd h (splitOnChar_ne_nil sep rest)
    | cons hd t =>
      rw [h] at ih
      by_cases hc : c = sep
      · subst hc
        rw [if_pos rfl]
        cases t with
        | nil => simp [joinWith] at ih ⊢; simp [ih]
        | cons q t' => simp [joinWith] at ih ⊢; simp [ih]
      · rw [if_neg hc]
        cases t with
        | nil => simp [joinWith] at ih ⊢; simp [ih]
        | cons q t' => simp [joinWith] at ih ⊢; simp [ih]

theorem splitOnChar_sep_not_mem (sep : Char) (s : Str) :
    ∀ p ∈ splitOnChar sep s, sep ∉ p := by
  induction s with
  | nil => simp [splitOnChar]
  | cons c rest ih =>
    simp only [splitOnChar]
    cases h : splitOnChar sep rest with
    | nil => exact absurd h (splitOnChar_ne_nil sep rest)
    | cons hd t =>
      rw [h] at ih
      by_cases hc : c = sep
      · subst hc
        intro p hp
        rw [if_pos rfl, List.mem_cons] at hp
        rcases hp with rfl | hp
        · simp
        · exact ih p hp
      · intro p hp
        rw [if_neg hc, List.headD_cons, List.tail_cons, List.mem_cons] at hp
        rcases hp with rfl | hp
        · intro hmem
          rw [List.mem_cons] at hmem
          rcases hmem with hmem | hmem
          · exact hc hmem.symm
          · exact ih hd (List.mem_cons_self hd t) hmem
        · exact ih p (List.mem_cons_of_mem hd hp)

theorem splitOnChar_of_not_mem (sep : Char) (s : Str) (h : sep ∉ s) :
    splitOnChar sep s = [s] := by
  induction s with
  | nil => simp [splitOnChar]
  | cons c rest ih =>
    simp only [splitOnChar]
    rw [ih (fun hm => h (by simp [hm]))]
    have hc : ¬ c = sep := fun hcc => h (by simp [hcc])
    simp [hc]

theorem splitOnChar_append (sep : Char) (a b : Str) (ha : sep ∉ a) :
    splitOnChar sep (a ++ (sep :: b)) = a :: splitOnChar sep b := by
  induction a with
  | nil =>
    simp only [List.nil_append, splitOnChar]
    simp
  | cons c a' ih =>
    have hc : ¬ c = sep := fun hcc => ha (by simp [hcc])
    have ha' : sep ∉ a' := fun hm => ha (by simp [hm])
    simp only [List.cons_append, splitOnChar, List.append_eq]
    rw [ih ha', if_neg hc]
    simp

theorem digits_no_seps (p : Str) (hp : ∀ c ∈ p, c.isDigit = true) :
    '/' ∉ p ∧ '-' ∉ p := by
  constructor <;> intro hmem
  · exact absurd (hp _ hmem) (by decide)
  · exact absurd (hp _ hmem) (by decide)

/-- C6: for every well-formed remote-format date string (exactly three
dash-separated components, each a nonempty run of digits), converting to the
local format and back returns the original string:
convertDateFormatToGH (convertDateFormatToObsidian d) = d. -/
theorem date_conversion_round_trip (s : Str)
    (hwf : isWellFormedRemoteDate s = true) :
    convertDateFormatToGH (convertDateFormatToObsidian s) = s := by
  unfold isWellFormedRemoteDate at hwf
  split at hwf
  case h_2 => exact absurd hwf (by simp)
  case h_1 y m d hsplit =>
    simp only [Bool.and_eq_true] at hwf
    obtain ⟨⟨⟨hy, hm⟩, hd⟩, hdig⟩ := hwf
    have hall : ∀ c ∈ y ++ m ++ d, c.isDigit = true := by
      intro c hc
      exact List.all_eq_true.mp hdig c hc
    have hym : ∀ c ∈ y, c.isDigit = true := fun c hc => hall c (by simp [hc])
    have hmm : ∀ c ∈ m, c.isDigit = true := fun c hc => hall c (by simp [hc])
    have hdm : ∀ c ∈ d, c.isDigit = true := fun c hc => hall c (by simp [hc])
    obtain ⟨hyS, _⟩ := digits_no_seps y hym
    obtain ⟨hmS, _⟩ := digits_no_seps m hmm
    obtain ⟨hdS, _⟩ := digits_no_seps d hdm
    have hs : s = y ++ ('-' :: (m ++ ('-' :: d))) := by
      have hj := joinWith_splitOnChar '-' s
      rw [hsplit] at hj
      simpa [joinWith] using hj.symm
    have hobs : convertDateFormatToObsidian s = m ++ ('/' :: (d ++ ('/' :: y))) := by
      simp [convertDateFormatToObsidian, hsplit, getPart]
    rw [hobs]
    have hsplit2 : splitOnChar '/' (m ++ ('/' :: (d ++ ('/' :: y)))) = [m, d, y] := by
      rw [splitOnChar_append '/' m _ hmS, splitOnChar_append '/' d _ hdS,
        splitOnChar_of_not_mem '/' y hyS]
    simp [convertDateFormatToGH, hsplit2, getPart]
    simp [hs]

/-- C6 witness: the concrete remote date 2024-01-02 is well formed and
round trips. -/
theorem date_conversion_round_trip_witness :
    isWellFormedRemoteDate "2024-01-02".data = true ∧
      convertDateFormatToGH (convertDateFormatToObsidian "2024-01-02".data) =
        "2024-01-02".data :=
  ⟨by decide, date_conversion_round_trip "2024-01-02".data (by decide)⟩

/-- C7 counterexample: on an input with only two components the local to
remote conversion does not fail; it returns a value, substituting the text
"undefined" for the missing component (and likewise for the remote to local
conversion). -/
theorem date_conversion_no_error_counterexample :
    convertDateFormatToGH "01/02".data = "undefined-01-02".data ∧
      convertDateFormatToObsidian "2024-01".data = "01/undefined/2024".data := by
  constructor <;> decide

/-- C7 amended: both conversion functions are total and never signal an
error. On a two-component input each returns a reassembled string with the
text "undefined" in place of the missing third component, and on a
four-component input the fourth component is silently ignored. -/
theorem date_conversion_total_behavior (a b c d : Str)
    (haS : '/' ∉ a) (hbS : '/' ∉ b) (hcS : '/' ∉ c) (hdS : '/' ∉ d)
    (haD : '-' ∉ a) (hbD : '-' ∉ b) :
    convertDateFormatToGH (a ++ ('/' :: b)) =
        jsUndefined ++ ('-' :: (a ++ ('-' :: b))) ∧
      convertDateFormatToObsidian (a ++ ('-' :: b)) =
        b ++ ('/' :: (jsUndefined ++ ('/' :: a))) ∧
      convertDateFormatToGH (a ++ ('/' :: (b ++ ('/' :: (c ++ ('/' :: d)))))) =
        c ++ ('-' :: (a ++ ('-' :: b))) := by
  refine ⟨?_, ?_, ?_⟩
  · have h2 : splitOnChar '/' (a ++ ('/' :: b)) = [a, b] := by
      rw [splitOnChar_append '/' a _ haS, splitOnChar_of_not_mem '/' b hbS]
    simp [convertDateFormatToGH, h2, getPart]
  · have h2 : splitOnChar '-' (a ++ ('-' :: b)) = [a, b] := by
      rw [splitOnChar_append '-' a _ haD, splitOnChar_of_not_mem '-' b hbD]
    simp [convertDateFormatToObsidian, h2, getPart]
  · have h4 : splitOnChar '/' (a ++ ('/' :: (b ++ ('/' :: (c ++ ('/' :: d)))))) =
        [a, b, c, d] := by
      rw [splitOnChar_append '/' a _ haS, splitOnChar_append '/' b _ hbS,
        splitOnChar_append '/' c _ hcS, splitOnChar_of_not_mem '/' d hdS]
    simp [convertDateFormatToGH, h4, getPart]

/-- C7 amended witness: concrete instance of the totality theorem. -/
theorem date_conversion_total_behavior_witness :
    convertDateFormatToGH "01/02".data =
      "undefined".data ++ ('-' :: ("01".data ++ ('-' :: "02".data))) :=
  (date_conversion_total_behavior "01".data "02".data "3".data "4".data
    (by decide) (by decide) (by decide) (by decide) (by decide) (by decide)).1


theorem startsWithJS_append (p t : Str) : startsWithJS (p ++ t) p = true := by
  induction p with
  | nil => cases t <;> rfl
  | cons a as ih => simp [startsWithJS, ih]

theorem toLabels_managed (s : OGDSettings) (fm : FrontMatter) :
    ∀ l ∈ toLabels s fm,
      startsWithJS l s.tagLabelPrefix = true ∨
        startsWithJS l s.seriesLabelPrefix = true := by
  intro l hl
  unfold toLabels at hl
  rw [List.mem_append] at hl
  rcases hl with hl | hl
  · left
    cases htags : fm.tags with
    | none => rw [htags] at hl; simp at hl
    | some ts =>
      rw [htags] at hl
      rw [List.mem_map] at hl
      obtain ⟨t, _, rfl⟩ := hl
      exact startsWithJS_append _ _
  · right
    cases hser : fm.series with
    | none => rw [hser] at hl; simp at hl
    | some sr =>
      rw [hser] at hl
      by_cases hsr : sr = []
      · simp [hsr] at hl
      · simp [hsr] at hl
        rw [hl]
        exact startsWithJS_append _ _

theorem mapSet_mem_keys {α β : Type} [DecidableEq α] (m : List (α × β))
    (k : α) (v : β) :
    ∀ e ∈ mapSet m k v, e.1 = k ∨ ∃ e2 ∈ m, e.1 = e2.1 := by
  intro e he
  unfold mapSet at he
  split at he
  · rw [List.mem_map] at he
    obtain ⟨e2, he2, heq⟩ := he
    by_cases hk : e2.1 = k
    · rw [if_pos hk] at heq
      left
      rw [← heq]
    · rw [if_neg hk] at heq
      right
      exact ⟨e2, he2, by rw [← heq]⟩
  · rw [List.mem_append] at he
    rcases he with he | he
    · right
      exact ⟨e, he, rfl⟩
    · left
      simp at he
      rw [he]

theorem foldl_labelStep_keys (existing : List (Str × Str)) (names : List Str)
    (acc : List (Str × Str) × List Str) :
    ∀ e ∈ (names.foldl (fun acc2 labelName =>
        match mapGet existing labelName with
        | some i => (mapSet acc2.1 labelName i, acc2.2)
        | none => (mapSet acc2.1 labelName (freshLabelId labelName),
                   acc2.2 ++ [labelName])) acc).1,
      (∃ e2 ∈ acc.1, e.1 = e2.1) ∨ e.1 ∈ names := by
  induction names generalizing acc with
  | nil =>
    intro e he
    exact Or.inl ⟨e, he, rfl⟩
  | cons n ns ih =>
    intro e he
    rw [List.foldl_cons] at he
    cases hg : mapGet existing n with
    | some i =>
      rw [hg] at he
      rcases ih _ e he with ⟨e2, he2, heq⟩ | hmem
      · rcases mapSet_mem_keys acc.1 n i e2 he2 with hk | ⟨e3, he3, heq3⟩
        · exact Or.inr (by rw [heq, hk]; exact List.mem_cons_self n ns)
        · exact Or.inl ⟨e3, he3, by rw [heq, heq3]⟩
      · exact Or.inr (List.mem_cons_of_mem n hmem)
    | none =>
      rw [hg] at he
      rcases ih _ e he with ⟨e2, he2, heq⟩ | hmem
      · rcases mapSet_mem_keys acc.1 n (freshLabelId n) e2 he2 with hk | ⟨e3, he3, heq3⟩
        · exact Or.inr (by rw [heq, hk]; exact List.mem_cons_self n ns)
        · exact Or.inl ⟨e3, he3, by rw [heq, heq3]⟩
      · exact Or.inr (List.mem_cons_of_mem n hmem)

theorem createOrUpdateLabels_keys (existing : List (Str × Str))
    (names : List Str) :
    ∀ e ∈ (createOrUpdateLabels existing names).1, e.1 ∈ names := by
  intro e he
  unfold createOrUpdateLabels at he
  rcases foldl_labelStep_keys existing names ([], []) e he with ⟨e2, he2, _⟩ | h
  · simp at he2
  · exact h

/-- C10: the CREATE_LABEL_MUTATION document declares the color variable
as non-nullable, yet the variables record createOrUpdateLabels passes for
a label name absent from the known-labels map contains only repositoryId,
name and description — every such create-label request omits a required
variable (and such a request is indeed issued for an unknown name). -/
theorem create_label_omits_required_color :
    ("color".data, true) ∈ createLabelMutationVariables ∧
      "color".data ∉ createLabelCallKeys ∧
      (createOrUpdateLabels [] ["tag/x".data]).2 = ["tag/x".data] := by
  refine ⟨by decide, by decide, by decide⟩

/-- C1 counterexample: with the default settings a draft-literal label
sitting on the remote record (and in no desired set) is not a removal
candidate — the removal filter tests only the two prefixes, which the
draft literal matches neither of. -/
theorem draft_label_not_removed_counterexample :
    existingLabelsToRemove DEFAULT_SETTINGS
        [⟨"L1".data, "state/draft".data⟩] = [] ∧
      startsWithJS "state/draft".data DEFAULT_SETTINGS.tagLabelPrefix = false ∧
      startsWithJS "state/draft".data DEFAULT_SETTINGS.seriesLabelPrefix = false := by
  refine ⟨by decide, by decide, by decide⟩

/-- C1 amended: for a matched pair the labels removed are exactly those
current remote labels whose name starts with the tag label prefix or the
series label prefix; every label matching neither prefix — the draft
literal included — is preserved. -/
theorem managed_label_removal_scope (s : OGDSettings) (current : List LabelNode)
    (hids : (current.map (fun l => l.id)).Nodup) :
    (∀ i ∈ existingLabelsToRemove s current,
        ∃ l ∈ current, l.id = i ∧
          (startsWithJS l.name s.tagLabelPrefix = true ∨
            startsWithJS l.name s.seriesLabelPrefix = true)) ∧
      ∀ l ∈ current,
        startsWithJS l.name s.tagLabelPrefix = false →
        startsWithJS l.name s.seriesLabelPrefix = false →
        l.id ∉ existingLabelsToRemove s current := by
  constructor
  · intro i hi
    simp only [existingLabelsToRemove, List.mem_map, List.mem_filter] at hi
    obtain ⟨l, ⟨hl, hp⟩, rfl⟩ := hi
    refine ⟨l, hl, rfl, ?_⟩
    exact Bool.or_eq_true _ _ |>.mp hp
  · intro l hl h1 h2 hmem
    simp only [existingLabelsToRemove, List.mem_map, List.mem_filter] at hmem
    obtain ⟨l2, ⟨hl2, hp⟩, hid⟩ := hmem
    have heq : l2 = l := List.inj_on_of_nodup_map hids hl2 hl hid
    subst heq
    rw [h1, h2] at hp
    simp at hp

/-- C1 amended witness: an unmanaged label id survives the removal filter
on a concrete matched pair. -/
theorem managed_label_removal_scope_witness :
    "L2".data ∉ existingLabelsToRemove DEFAULT_SETTINGS
        [⟨"L1".data, "tag/x".data⟩, ⟨"L2".data, "area/infra".data⟩] :=
  (managed_label_removal_scope DEFAULT_SETTINGS
      [⟨"L1".data, "tag/x".data⟩, ⟨"L2".data, "area/infra".data⟩]
      (by decide)).2
    ⟨"L2".data, "area/infra".data⟩ (by decide) (by decide) (by decide)

/-- C8 counterexample: a document whose draft flag is true renders an
empty label set under the default settings — in particular the rendered
set does not contain the configured draft label. -/
theorem draft_flag_ignored_counterexample :
    toLabels DEFAULT_SETTINGS
        ⟨some "s".data, "d".data, "01/02/2024".data, none, none, true⟩ = [] ∧
      DEFAULT_SETTINGS.draftLabel ∉
        toLabels DEFAULT_SETTINGS
          ⟨some "s".data, "d".data, "01/02/2024".data, none, none, true⟩ := by
  refine ⟨by decide, by decide⟩

/-- C8 amended: the label set rendered when planning upload is identical
whether the draft flag is true or false — the flag is never read — and
every rendered label starts with the tag label prefix or the series label
prefix; no draft literal is contributed by the flag. -/
theorem upload_never_renders_draft_label (s : OGDSettings) (fm : FrontMatter) :
    toLabels s { fm with draft := true } = toLabels s { fm with draft := false } ∧
      ∀ l ∈ toLabels s fm,
        startsWithJS l s.tagLabelPrefix = true ∨
          startsWithJS l s.seriesLabelPrefix = true := by
  exact ⟨rfl, toLabels_managed s fm⟩

/-- C8 amended witness: concrete instance of flag independence and of the
prefix shape of a rendered label. -/
theorem upload_never_renders_draft_label_witness :
    toLabels DEFAULT_SETTINGS
        ⟨some "s".data, "d".data, "01/02/2024".data, some ["x".data], none, true⟩ =
      toLabels DEFAULT_SETTINGS
        ⟨some "s".data, "d".data, "01/02/2024".data, some ["x".data], none, false⟩ ∧
      (startsWithJS "tag/x".data DEFAULT_SETTINGS.tagLabelPrefix = true ∨
        startsWithJS "tag/x".data DEFAULT_SETTINGS.seriesLabelPrefix = true) :=
  ⟨(upload_never_renders_draft_label DEFAULT_SETTINGS
      ⟨some "s".data, "d".data, "01/02/2024".data, some ["x".data], none, true⟩).1,
    (upload_never_renders_draft_label DEFAULT_SETTINGS
      ⟨some "s".data, "d".data, "01/02/2024".data, some ["x".data], none, false⟩).2
      "tag/x".data (by decide)⟩

/-- C3 counterexample: applying the label update twice with the same
desired labels and no intervening change issues nonempty remove and add
payloads the second time — the managed labels just attached are all
removed and re-added. -/
theorem label_sync_second_run_diffs_nonempty :
    labelSyncMutations DEFAULT_SETTINGS []
        (toLabels DEFAULT_SETTINGS
          ⟨some "s".data, "d".data, "01/02/2024".data, some ["x".data], none, false⟩)
        (applyLabelSync DEFAULT_SETTINGS []
          (toLabels DEFAULT_SETTINGS
            ⟨some "s".data, "d".data, "01/02/2024".data, some ["x".data], none, false⟩)
          []) =
      (["tag/x".data], ["tag/x".data]) := by
  decide

/-- C3 amended: re-running the label update with an unchanged document
leaves the remote label set unchanged (idempotence holds at the state
level), even though the mutation payloads of the second run are not
empty. -/
theorem label_sync_state_idempotent (s : OGDSettings)
    (existing : List (Str × Str)) (fm : FrontMatter)
    (current : List LabelNode) :
    applyLabelSync s existing (toLabels s fm)
        (applyLabelSync s existing (toLabels s fm) current) =
      applyLabelSync s existing (toLabels s fm) current := by
  unfold applyLabelSync
  rw [List.filter_append]
  have h1 : ∀ (l : List LabelNode) (p : LabelNode → Bool),
      (l.filter p).filter p = l.filter p := by
    intro l p
    rw [List.filter_filter]
    apply List.filter_congr
    intro a _
    rw [Bool.and_self]
  rw [h1]
  have h2 : (((createOrUpdateLabels existing (toLabels s fm)).1).map
      (fun e => ({ id := e.2, name := e.1 } : LabelNode))).filter
        (fun l => !(startsWithJS l.name s.tagLabelPrefix ||
          startsWithJS l.name s.seriesLabelPrefix)) = [] := by
    rw [List.filter_eq_nil_iff]
    intro a ha
    rw [List.mem_map] at ha
    obtain ⟨e, he, rfl⟩ := ha
    have hk := createOrUpdateLabels_keys existing (toLabels s fm) e he
    rcases toLabels_managed s fm e.1 hk with h | h <;> simp [h]
  rw [h2, List.append_nil]

/-- C4: evaluating the new-file loop at the failing input — two documents
that both introduce the tag label tag/x while the known-labels map is
empty — shows two CREATE_LABEL_MUTATION calls for the same name in one
run: the map fed to every createOrUpdateLabels call is never updated with
the ids of labels created earlier in the run. -/
theorem duplicate_label_create_in_one_run :
    runLabelCreates DEFAULT_SETTINGS []
        [⟨some "a".data, "d".data, "01/02/2024".data, some ["x".data], none, false⟩,
         ⟨some "b".data, "d".data, "01/02/2024".data, some ["x".data], none, false⟩] =
      ["tag/x".data, "tag/x".data] ∧
      (runLabelCreates DEFAULT_SETTINGS []
        [⟨some "a".data, "d".data, "01/02/2024".data, some ["x".data], none, false⟩,
         ⟨some "b".data, "d".data, "01/02/2024".data, some ["x".data], none, false⟩]).count
        "tag/x".data = 2 := by
  refine ⟨by decide, by decide⟩

/-- C9: when the configured category name matches no discussion category
of the repository, the upload run issues no mutation at all — every
operation in its trace is a read-only query (the trace is just the
repository-info query). -/
theorem category_not_found_aborts (s : OGDSettings) (info : RepoInfo)
    (arts : List Post) (files : List MdFile) (a b c : Bool)
    (hcat : info.discussionCategories.find?
      (fun cat => cat.name = s.blogPostCategory) = none) :
    ∀ op ∈ uploadTrace s info arts files a b c, op.isMutation = false := by
  intro op hop
  simp only [uploadTrace] at hop
  rw [hcat] at hop
  simp [truthyStr] at hop
  rw [hop]
  rfl

/-- C9 witness: a concrete repository whose only category is not the
configured one yields a mutation-free trace member. -/
theorem category_not_found_aborts_witness :
    GhOp.isMutation GhOp.queryRepoInfo = false :=
  category_not_found_aborts DEFAULT_SETTINGS
    ⟨"R1".data, [⟨"C1".data, "Other".data⟩], []⟩ [] [] true true true
    (by decide) GhOp.queryRepoInfo (by decide)

theorem foldl_mapSet_all_new {α β : Type} [DecidableEq α]
    (f : β → α) (l : List β) (acc : List (α × β))
    (hnd : (l.map f).Nodup)
    (hdisj : ∀ e ∈ acc, ∀ b ∈ l, e.1 ≠ f b) :
    l.foldl (fun m a => mapSet m (f a) a) acc =
      acc ++ l.map (fun a => (f a, a)) := by
  induction l generalizing acc with
  | nil => simp
  | cons a rest ih =>
    rw [List.foldl_cons]
    have hnone : acc.find? (fun e => e.1 = f a) = none := by
      rw [List.find?_eq_none]
      intro e he
      simpa using hdisj e he a (List.mem_cons_self a rest)
    have hset : mapSet acc (f a) a = acc ++ [(f a, a)] := by
      unfold mapSet
      rw [hnone]
      simp
    rw [hset]
    rw [List.map_cons, List.nodup_cons] at hnd
    rw [ih (acc ++ [(f a, a)]) hnd.2]
    · simp
    · intro e he b hb
      rw [List.mem_append] at he
      rcases he with he | he
      · exact hdisj e he b (List.mem_cons_of_mem a hb)
      · simp at he
        subst he
        intro hfab
        have hab : f a = f b := hfab
        exact hnd.1 (by rw [hab]; exact List.mem_map_of_mem f hb)

theorem ghArticleMap_eq_map (arts : List Post)
    (hnd : (arts.map Post.slug).Nodup) :
    ghArticleMap arts = arts.map (fun a => (a.slug, a)) := by
  unfold ghArticleMap
  have h := foldl_mapSet_all_new Post.slug arts [] hnd (by simp)
  simpa using h

theorem findPost_eq_of_nodup (arts : List Post) (r : Post)
    (hnd : (arts.map Post.slug).Nodup) (hr : r ∈ arts) (s : Str)
    (hs : r.slug = some s) :
    findPost arts s = some r := by
  unfold findPost
  induction arts with
  | nil => simp at hr
  | cons a rest ih =>
    rw [List.map_cons, List.nodup_cons] at hnd
    by_cases ha : a.slug = some s
    · rw [List.find?_cons_of_pos _ (by simpa using ha)]
      rcases List.mem_cons.mp hr with rfl | hr2
      · rfl
      · exfalso
        apply hnd.1
        rw [ha, ← hs]
        exact List.mem_map_of_mem Post.slug hr2
    · rw [List.find?_cons_of_neg _ (by simpa using ha)]
      rcases List.mem_cons.mp hr with rfl | hr2
      · exact absurd hs ha
      · exact ih hnd.2 hr2

/-- C5 counterexample: a remote record whose metadata block has no slug
is not excluded from matching — the download direction files it under the
undefined key and treats it as a new remote article. -/
theorem slugless_remote_counterexample :
    newArticles [⟨"p1".data, "T".data, "B".data, [], none⟩] [] =
      [(none, ⟨"p1".data, "T".data, "B".data, [], none⟩)] := by
  decide

/-- C5 amended: matching partitions the slugged inputs — a valid local
file (three sections, truthy slug) lands in exactly one of newFiles or
pairedFiles, an invalid one in neither; and, when the remote slugs are
pairwise distinct, every remote record keeps its entry in ghArticleMap
and that entry is a new remote article exactly when no local file carries
its slug — in particular a remote record with no slug is always filed as
a new remote article rather than being excluded. -/
theorem matcher_partition (arts : List Post) (files : List MdFile)
    (hnd : (arts.map Post.slug).Nodup) :
    (∀ f ∈ files, validForUpload f = true →
        ((f ∈ newFiles arts files ∧ ∀ p : Post, (f, p) ∉ pairedFiles arts files) ∨
          (f ∉ newFiles arts files ∧ ∃ p : Post, (f, p) ∈ pairedFiles arts files))) ∧
      (∀ f ∈ files, validForUpload f = false →
          f ∉ newFiles arts files ∧ ∀ p : Post, (f, p) ∉ pairedFiles arts files) ∧
      (∀ r ∈ arts, (r.slug, r) ∈ ghArticleMap arts ∧
          ((r.slug, r) ∈ newArticles arts files ↔
            ∀ s, r.slug = some s → s ∉ existingFileSlugs files)) := by
  refine ⟨?_, ?_, ?_⟩
  · intro f hf hval
    cases hfind : findPost arts (fileSlug f) with
    | none =>
      left
      constructor
      · exact List.mem_filter.mpr ⟨hf, by rw [hval, hfind]; rfl⟩
      · intro p hp
        unfold pairedFiles at hp
        rw [List.mem_filterMap] at hp
        obtain ⟨f2, _, hg⟩ := hp
        by_cases hv2 : validForUpload f2 = true
        · rw [if_pos hv2] at hg
          rw [Option.map_eq_some'] at hg
          obtain ⟨p2, hp2, heq⟩ := hg
          have hf2f : f2 = f := congrArg Prod.fst heq
          rw [hf2f, hfind] at hp2
          exact Option.noConfusion hp2
        · rw [if_neg hv2] at hg
          exact Option.noConfusion hg
    | some p =>
      right
      constructor
      · intro hmem
        have hp := (List.mem_filter.mp hmem).2
        rw [hval, hfind] at hp
        simp at hp
      · refine ⟨p, List.mem_filterMap.mpr ⟨f, hf, ?_⟩⟩
        rw [if_pos hval, hfind]
        rfl
  · intro f hf hval
    constructor
    · intro hmem
      have hp := (List.mem_filter.mp hmem).2
      rw [hval] at hp
      simp at hp
    · intro p hp
      unfold pairedFiles at hp
      rw [List.mem_filterMap] at hp
      obtain ⟨f2, _, hg⟩ := hp
      by_cases hv2 : validForUpload f2 = true
      · rw [if_pos hv2] at hg
        rw [Option.map_eq_some'] at hg
        obtain ⟨p2, _, heq⟩ := hg
        have hf2f : f2 = f := congrArg Prod.fst heq
        rw [hf2f, hval] at hv2
        exact Bool.noConfusion hv2
      · rw [if_neg hv2] at hg
        exact Option.noConfusion hg
  · intro r hr
    have hmap : (r.slug, r) ∈ ghArticleMap arts := by
      rw [ghArticleMap_eq_map arts hnd]
      exact List.mem_map.mpr ⟨r, hr, rfl⟩
    refine ⟨hmap, ?_⟩
    unfold newArticles
    cases hslug : r.slug with
    | none =>
      rw [hslug] at hmap
      constructor
      · intro _ s hs
        exact absurd hs (by simp)
      · intro _
        exact List.mem_filter.mpr ⟨hmap, rfl⟩
    | some s =>
      rw [hslug] at hmap
      constructor
      · intro h s2 hs2
        have hp := (List.mem_filter.mp h).2
        simp at hp
        injection hs2 with heq
        rw [← heq]
        exact hp
      · intro hforall
        refine List.mem_filter.mpr ⟨hmap, ?_⟩
        have hnot : s ∉ existingFileSlugs files := hforall s rfl
        simp [hnot]

/-- C5 amended witness: a concrete slugless remote record keeps its entry
in the article map. -/
theorem matcher_partition_witness :
    ((⟨"p1".data, "T".data, "B".data, [], none⟩ : Post).slug,
        (⟨"p1".data, "T".data, "B".data, [], none⟩ : Post)) ∈
      ghArticleMap [⟨"p1".data, "T".data, "B".data, [], none⟩] :=
  ((matcher_partition [⟨"p1".data, "T".data, "B".data, [], none⟩] []
      (by decide)).2.2
    ⟨"p1".data, "T".data, "B".data, [], none⟩ (by decide)).1

theorem hasTripleDash_cons_false (c : Char) (l : Str)
    (h : hasTripleDash (c :: l) = false) : hasTripleDash l = false := by
  match l with
  | [] => rfl
  | [d] => rfl
  | d :: e :: r =>
    have heq : hasTripleDash (c :: d :: e :: r) =
        ((decide (c = '-' ∧ d = '-' ∧ e = '-')) || hasTripleDash (d :: e :: r)) := rfl
    rw [heq] at h
    exact (Bool.or_eq_false_iff.mp h).2

theorem hasTripleDash_head_false (c d e : Char) (l : Str)
    (h : hasTripleDash (c :: d :: e :: l) = false) :
    ¬(c = '-' ∧ d = '-' ∧ e = '-') := by
  have heq : hasTripleDash (c :: d :: e :: l) =
      ((decide (c = '-' ∧ d = '-' ∧ e = '-')) || hasTripleDash (d :: e :: l)) := rfl
  rw [heq] at h
  exact of_decide_eq_false (Bool.or_eq_false_iff.mp h).1

theorem splitOnDashes_cons_sep (w : Str) :
    splitOnDashes ('-' :: '-' :: '-' :: w) = [] :: splitOnDashes w := by
  rw [show splitOnDashes ('-' :: '-' :: '-' :: w) =
    (if ('-' : Char) = '-' ∧ ('-' : Char) = '-' ∧ ('-' : Char) = '-'
     then [] :: splitOnDashes w
     else
       (('-' : Char) :: (splitOnDashes ('-' :: '-' :: w)).headD []) ::
         (splitOnDashes ('-' :: '-' :: w)).tail) from rfl]
  rw [if_pos ⟨rfl, rfl, rfl⟩]

theorem splitOnDashes_no_sep (s : Str) (h : hasTripleDash s = false) :
    splitOnDashes s = [s] := by
  induction s with
  | nil => rfl
  | cons c rest ih =>
    match rest, ih with
    | [], _ => rfl
    | [d], _ => rfl
    | d :: e :: r, ih =>
      have hcde : ¬(c = '-' ∧ d = '-' ∧ e = '-') :=
        hasTripleDash_head_false c d e r h
      have htail : hasTripleDash (d :: e :: r) = false :=
        hasTripleDash_cons_false c _ h
      have heq : splitOnDashes (c :: d :: e :: r) =
          (if c = '-' ∧ d = '-' ∧ e = '-'
           then [] :: splitOnDashes r
           else
             (c :: (splitOnDashes (d :: e :: r)).headD []) ::
               (splitOnDashes (d :: e :: r)).tail) := rfl
      rw [heq, if_neg hcde, ih htail]
      rfl

theorem splitOnDashes_append (x y : Str)
    (hx : hasTripleDash (x ++ ['-', '-']) = false) :
    splitOnDashes (x ++ ('-' :: '-' :: '-' :: y)) = x :: splitOnDashes y := by
  induction x with
  | nil =>
    rw [List.nil_append]
    exact splitOnDashes_cons_sep y
  | cons c x2 ih =>
    have hx2 : hasTripleDash (x2 ++ ['-', '-']) = false :=
      hasTripleDash_cons_false c _ hx
    have hq := ih hx2
    cases x2 with
    | nil =>
      have hc : ¬(c = '-' ∧ ('-' : Char) = '-' ∧ ('-' : Char) = '-') :=
        hasTripleDash_head_false c '-' '-' [] hx
      rw [List.nil_append] at hq
      have heq : splitOnDashes ((c :: []) ++ ('-' :: '-' :: '-' :: y)) =
          (if c = '-' ∧ ('-' : Char) = '-' ∧ ('-' : Char) = '-'
           then [] :: splitOnDashes ('-' :: y)
           else
             (c :: (splitOnDashes ('-' :: '-' :: ('-' :: y))).headD []) ::
               (splitOnDashes ('-' :: '-' :: ('-' :: y))).tail) := rfl
      rw [heq, if_neg hc, hq]
      rfl
    | cons d x3 =>
      cases x3 with
      | nil =>
        have hc : ¬(c = '-' ∧ d = '-' ∧ ('-' : Char) = '-') :=
          hasTripleDash_head_false c d '-' ['-'] hx
        have heq : splitOnDashes ((c :: d :: []) ++ ('-' :: '-' :: '-' :: y)) =
            (if c = '-' ∧ d = '-' ∧ ('-' : Char) = '-'
             then [] :: splitOnDashes ('-' :: '-' :: y)
             else
               (c :: (splitOnDashes (d :: '-' :: ('-' :: '-' :: y))).headD []) ::
                 (splitOnDashes (d :: '-' :: ('-' :: '-' :: y))).tail) := rfl
        rw [heq, if_neg hc]
        have hq2 : splitOnDashes (d :: '-' :: ('-' :: '-' :: y)) =
            [d] :: splitOnDashes y := hq
        rw [hq2]
        rfl
      | cons e x4 =>
        have hc : ¬(c = '-' ∧ d = '-' ∧ e = '-') :=
          hasTripleDash_head_false c d e (x4 ++ ['-', '-']) hx
        have heq : splitOnDashes ((c :: d :: e :: x4) ++ ('-' :: '-' :: '-' :: y)) =
            (if c = '-' ∧ d = '-' ∧ e = '-'
             then [] :: splitOnDashes (x4 ++ ('-' :: '-' :: '-' :: y))
             else
               (c :: (splitOnDashes (d :: e :: (x4 ++ ('-' :: '-' :: '-' :: y)))).headD []) ::
                 (splitOnDashes (d :: e :: (x4 ++ ('-' :: '-' :: '-' :: y)))).tail) := rfl
        rw [heq, if_neg hc]
        have hq2 : splitOnDashes (d :: e :: (x4 ++ ('-' :: '-' :: '-' :: y))) =
            (d :: e :: x4) :: splitOnDashes y := hq
        rw [hq2]
        rfl

/-- C2 counterexample: for a concrete matched pair whose remote metadata
block reads description B while the local frontmatter says description A
— with identical published dates on both sides — the metadata section of
the body sent by the content update differs from the existing remote
metadata section: the remote block is not preserved byte for byte even
though the date fields already agree. -/
theorem content_update_counterexample :
    getSection (splitOnDashes (discussionBodyOf
        ⟨some "s".data, "A".data, "01/02/2024".data, none, none, false⟩
        ["".data, "x".data, "\nnew".data])) 1 ≠
      getSection (splitOnDashes
        "---\nslug: s\ndescription: B\npublished: 2024-01-02\n---\nold".data) 1 ∧
      convertDateFormatToGH "01/02/2024".data = "2024-01-02".data := by
  refine ⟨by decide, by decide⟩

/-- C2 amended: the body sent by the content-update operation for a
matched pair does not depend on the matched remote record beyond its id,
and it parses back into exactly three sections: an empty lead, a metadata
block rebuilt from the local frontmatter (slug, description, converted
published date), and the trimmed third section of the local file as the
free-text portion. The existing remote metadata block is discarded, not
preserved. -/
theorem content_update_rebuilds_metadata (f : MdFile) (p q : Post)
    (hid : p.id = q.id)
    (hmeta : hasTripleDash (('\n' :: githubFrontMatterOf f.frontMatter) ++
      ['-', '-']) = false)
    (hbody : hasTripleDash ('\n' :: trimJS (getSection f.sections 2)) = false) :
    contentUpdateOp f p = contentUpdateOp f q ∧
      splitOnDashes (discussionBodyOf f.frontMatter f.sections) =
        [[], '\n' :: githubFrontMatterOf f.frontMatter,
          '\n' :: trimJS (getSection f.sections 2)] := by
  constructor
  · unfold contentUpdateOp
    rw [hid]
  · have hshape : discussionBodyOf f.frontMatter f.sections =
        '-' :: '-' :: '-' :: (('\n' :: githubFrontMatterOf f.frontMatter) ++
          ('-' :: '-' :: '-' :: ('\n' :: trimJS (getSection f.sections 2)))) := by
      unfold discussionBodyOf
      simp
    rw [hshape, splitOnDashes_cons_sep,
      splitOnDashes_append _ _ hmeta,
      splitOnDashes_no_sep _ hbody]

/-- C2 amended witness: the parse-back shape at a concrete file and
post. -/
theorem content_update_rebuilds_metadata_witness :
    contentUpdateOp
        ⟨"T".data, ["".data, "x".data, "\nnew".data],
          ⟨some "s".data, "A".data, "01/02/2024".data, none, none, false⟩⟩
        ⟨"D1".data, "T".data, "old".data, [], some "s".data⟩ =
      contentUpdateOp
        ⟨"T".data, ["".data, "x".data, "\nnew".data],
          ⟨some "s".data, "A".data, "01/02/2024".data, none, none, false⟩⟩
        ⟨"D1".data, "T".data, "old".data, [], some "s".data⟩ ∧
      splitOnDashes (discussionBodyOf
          ⟨some "s".data, "A".data, "01/02/2024".data, none, none, false⟩
          ["".data, "x".data, "\nnew".data]) =
        [[], '\n' :: githubFrontMatterOf
            ⟨some "s".data, "A".data, "01/02/2024".data, none, none, false⟩,
          '\n' :: trimJS (getSection ["".data, "x".data, "\nnew".data] 2)] :=
  content_update_rebuilds_metadata
    ⟨"T".data, ["".data, "x".data, "\nnew".data],
      ⟨some "s".data, "A".data, "01/02/2024".data, none, none, false⟩⟩
    ⟨"D1".data, "T".data, "old".data, [], some "s".data⟩
    ⟨"D1".data, "T".data, "old".data, [], some "s".data⟩
    rfl (by decide) (by decide)
